import Mathlib

-- Verification development for the sparse Bayesian neural-network code in
-- src/bnn/networks/sparse.py.  The models' unnormalized log-posteriors and the
-- training loop are embedded shallowly over ℚ (exact arithmetic standing in
-- for float64); the transcendental functions the code calls (sqrt, cos, sin,
-- log, lgamma) are passed as abstract parameters so that every definition
-- stays executable.  The analytic Jacobian of the cosine-RFF feature map is
-- additionally embedded over ℝ, where its defining property (being the true
-- derivative of the feature map) can be proved.

set_option maxHeartbeats 2000000
set_option maxRecDepth 8000

/-! ## Python helpers -/

-- Python's `int()` applied to a rational value truncates toward zero.
def truncQ (q : ℚ) : ℤ := if 0 ≤ q then ⌊q⌋ else ⌈q⌉

-- `torch.min` over a (possibly empty) slice of the loss tensor.
def listMin : List ℚ → Option ℚ
  | [] => none
  | q :: qs =>
    match listMin qs with
    | none => some q
    | some m => some (min q m)

/-! ## The training loop (`train`, sparse.py lines 1058-1142)

The model, optimizer and data are abstracted into the per-epoch loss sequence
`seq : ℕ → ℚ` (the value `l.item()` stored into `loss[epoch]`); the control
flow of the loop is transcribed line by line. -/

-- sparse.py line 1074:
-- temperature_kl = epoch / (n_epochs/10) if epoch < n_epochs/10 else 1.0
def temperature_kl (n_epochs epoch : ℕ) : ℚ :=
  if (epoch : ℚ) < (n_epochs : ℚ) / 10 then (epoch : ℚ) / ((n_epochs : ℚ) / 10) else 1

-- The mutable loop state: the filled prefix of the `loss` tensor, the two
-- best-loss trackers (`none` models the initial `float('inf')`), the
-- `saved_model` flag, the epochs at which a checkpoint was written, and
-- whether the final reload (lines 1135-1139) happened.
structure TrainState where
  losses : List ℚ
  loss_best : Option ℚ
  loss_best_saved : Option ℚ
  saved_model : Bool
  saves : List ℕ
  reloaded : Bool
deriving Repr, DecidableEq

def initState : TrainState :=
  { losses := [], loss_best := none, loss_best_saved := none,
    saved_model := false, saves := [], reloaded := false }

-- `l < loss_best` where `loss_best` may still be `float('inf')`.
def betterThan (l : ℚ) : Option ℚ → Bool
  | none => true
  | some b => decide (l < b)

-- sparse.py lines 1110-1111: if loss[epoch] < loss_best and temperature_kl==1.0
def update_loss_best (temperature l : ℚ) (loss_best : Option ℚ) : Option ℚ :=
  if betterThan l loss_best && decide (temperature = 1) then some l else loss_best

-- sparse.py line 1114: epoch > frac_start_save*n_epochs and loss[epoch] < loss_best_saved
def saveCond (fss : ℚ) (n_epochs epoch : ℕ) (l : ℚ) (loss_best_saved : Option ℚ) : Bool :=
  decide ((epoch : ℚ) > fss * (n_epochs : ℚ)) && betterThan l loss_best_saved

-- sparse.py line 1126: np.maximum(1, int(epoch - .25*n_epochs))
def epochLookback (n_epochs epoch : ℕ) : ℤ :=
  max 1 (truncQ ((epoch : ℚ) - (1 / 4) * (n_epochs : ℚ)))

-- sparse.py lines 1127-1132.  For a finite `loss_best` the sign of
-- `(loss_best - loss_best_lookback)/|loss_best|` agrees between float and ℚ
-- whenever `loss_best ≠ 0`; an infinite `loss_best` makes the float quotient
-- NaN, so no break happens, which the `none` branch reproduces.
def breakCond (fss : ℚ) (n_epochs epoch : ℕ) (losses : List ℚ) (loss_best : Option ℚ) : Bool :=
  if ((epochLookback n_epochs epoch : ℤ) : ℚ) > fss * (n_epochs : ℚ) + 1 then
    match loss_best, listMin (losses.drop (epochLookback n_epochs epoch).toNat) with
    | some b, some m => decide ((b - m) / |b| < 0)
    | _, _ => false
  else false

-- One iteration of `for epoch in range(n_epochs)` (lines 1069-1132): record
-- the loss, update `loss_best`, possibly save a checkpoint, and evaluate the
-- early-stopping test on the just-updated state.
def trainStep (n_epochs : ℕ) (fss : ℚ) (seq : ℕ → ℚ) (epoch : ℕ) (s : TrainState) :
    TrainState × Bool :=
  ({ losses := s.losses ++ [seq epoch],
     loss_best := update_loss_best (temperature_kl n_epochs epoch) (seq epoch) s.loss_best,
     loss_best_saved :=
       if saveCond fss n_epochs epoch (seq epoch) s.loss_best_saved then some (seq epoch)
       else s.loss_best_saved,
     saved_model :=
       if saveCond fss n_epochs epoch (seq epoch) s.loss_best_saved then true
       else s.saved_model,
     saves :=
       if saveCond fss n_epochs epoch (seq epoch) s.loss_best_saved then s.saves ++ [epoch]
       else s.saves,
     reloaded := s.reloaded },
   breakCond fss n_epochs epoch (s.losses ++ [seq epoch])
     (update_loss_best (temperature_kl n_epochs epoch) (seq epoch) s.loss_best))

-- The epoch loop, fuelled by the number of remaining epochs; a `true` break
-- flag ends the loop immediately.
def trainAux (n_epochs : ℕ) (fss : ℚ) (seq : ℕ → ℚ) : ℕ → ℕ → TrainState → TrainState
  | 0, _, s => s
  | r + 1, epoch, s =>
    if (trainStep n_epochs fss seq epoch s).2 then (trainStep n_epochs fss seq epoch s).1
    else trainAux n_epochs fss seq r (epoch + 1) (trainStep n_epochs fss seq epoch s).1

-- `train(model, optimizer, x, y, n_epochs, ..., frac_start_save, frac_lookback, ...)`.
-- `frac_lookback` is accepted but never read by the loop body (the lookback
-- at line 1126 is the hard-coded 25%); on exit the checkpoint is reloaded
-- exactly when one was saved (lines 1135-1139).
def train (n_epochs : ℕ) (frac_start_save frac_lookback : ℚ) (seq : ℕ → ℚ) : TrainState :=
  let s := trainAux n_epochs frac_start_save seq n_epochs 0 initState
  if s.saved_model then { s with reloaded := true } else s

/-! ## Shared pieces of the log-posterior builders -/

-- `tf.transpose(w) @ A @ w` for a weight column vector `w`.
def quadForm {K : ℕ} (w : Fin K → ℚ) (A : Matrix (Fin K) (Fin K) ℚ) : ℚ :=
  Matrix.dotProduct w (A.mulVec w)

-- The per-input-dimension gradient penalty added to the log-posterior
-- (sparse.py lines 190-196, 338-344, 506-512); `sqrtQ` abstracts tf.math.sqrt.
def gradPenTerm {K : ℕ} (sqrtQ : ℚ → ℚ) (penalty_type : String) (scale : ℚ)
    (A : Matrix (Fin K) (Fin K) ℚ) (w : Fin K → ℚ) : ℚ :=
  if penalty_type = "l1" then -(scale * sqrtQ (quadForm w A))
  else if penalty_type = "l2" then -(scale * quadForm w A)
  else 0

-- The slice `J[:,:,d]` of a jacobian tensor as an n×K matrix.
def Jmat {n K D : ℕ} (J : Fin n → Fin K → Fin D → ℚ) (d : Fin D) : Matrix (Fin n) (Fin K) ℚ :=
  Matrix.of fun m k => J m k d

-- `A_d = 1/n * J[:,:,d].T @ J[:,:,d]` (sparse.py lines 153, 324, 449).
def compute_Ax_d {n K D : ℕ} (J : Fin n → Fin K → Fin D → ℚ) (d : Fin D) :
    Matrix (Fin K) (Fin K) ℚ :=
  ((1 : ℚ) / (n : ℚ)) • ((Jmat J d).transpose * Jmat J d)

-- `torch.sum(torch.stack([A_d[i] for i in group]), 0)` (sparse.py line 157).
def group_Ax {n K D : ℕ} (J : Fin n → Fin K → Fin D → ℚ) (g : List (Fin D)) :
    Matrix (Fin K) (Fin K) ℚ :=
  (g.map (compute_Ax_d J)).foldl (· + ·) 0

def compute_Ax_groups {n K D : ℕ} (J : Fin n → Fin K → Fin D → ℚ)
    (groups : List (List (Fin D))) : List (Matrix (Fin K) (Fin K) ℚ) :=
  groups.map (group_Ax J)

-- The local helper `log_prob_invgamma` defined identically at sparse.py
-- lines 301-305 and 461-464; `logQ` and `lgammaQ` abstract tf.math.log and
-- tf.math.lgamma.
def log_prob_invgamma (logQ lgammaQ : ℚ → ℚ) (z alpha beta : ℚ) : ℚ :=
  (-(1 + alpha) * logQ z - beta / z) - (lgammaQ alpha - alpha * logQ beta)

/-! ## Spec-side formulas (written from the specification's words, for
comparison with the code-side definitions above) -/

-- The spec's Gaussian likelihood: `-1/(2σ²) * ‖y - H w‖²`.
def specGaussLik {n K : ℕ} (noise_sig2 : ℚ) (y : Fin n → ℚ) (H : Fin n → Fin K → ℚ)
    (w : Fin K → ℚ) : ℚ :=
  -(1 / (2 * noise_sig2)) * ∑ i, (y i - ∑ k, H i k * w k) ^ 2

-- The spec's inverse-gamma log-density: `-(1+α) log x - β/x - [lgamma(α) - α log β]`.
def specInvGammaLogDensity (logQ lgammaQ : ℚ → ℚ) (z alpha beta : ℚ) : ℚ :=
  -(1 + alpha) * logQ z - beta / z - lgammaQ alpha + alpha * logQ beta

/-! ## BayesLinearLasso (sparse.py lines 22-86) -/

namespace BayesLinearLasso

variable {n D : ℕ}

def resid (y : Fin n → ℚ) (x : Fin n → Fin D → ℚ) (w : Fin D → ℚ) : Fin n → ℚ :=
  fun i => y i - ∑ d, x i d * w d

-- Line 54: `-1/self.noise_sig2*tf.transpose(resid)@(resid)` — note: no factor 2.
def likTerm (noise_sig2 : ℚ) (y : Fin n → ℚ) (x : Fin n → Fin D → ℚ) (w : Fin D → ℚ) : ℚ :=
  -1 / noise_sig2 * ∑ i, resid y x w i * resid y x w i

-- Line 55: `tf.transpose(w)@(1/self.prior_w2_sig2*tf.eye(self.dim_in))@w`.
def l2Term (prior_w2_sig2 : ℚ) (w : Fin D → ℚ) : ℚ :=
  ∑ i, ∑ j, w i * (1 / prior_w2_sig2 * (if i = j then (1 : ℚ) else 0)) * w j

-- Line 58: `tf.math.reduce_sum(scale_global_tf*tf.math.abs(w))`.
def l1Term (scale_global : ℚ) (w : Fin D → ℚ) : ℚ :=
  ∑ i, scale_global * |w i|

-- Lines 63-65: `scale_groups*tf.norm(tf.gather(w, group))`.
def groupTerm (sqrtQ : ℚ → ℚ) (scale_groups : List ℚ) (groups : List (List (Fin D)))
    (w : Fin D → ℚ) : ℚ :=
  ((scale_groups.zip groups).map (fun p => p.1 * sqrtQ ((p.2.map (fun i => w i * w i)).sum))).sum

-- Lines 50-68.
def unnormalized_log_prob (sqrtQ : ℚ → ℚ) (noise_sig2 prior_w2_sig2 scale_global : ℚ)
    (groups : Option (List (List (Fin D)))) (scale_groups : List ℚ)
    (y : Fin n → ℚ) (x : Fin n → Fin D → ℚ) (w : Fin D → ℚ) : ℚ :=
  likTerm noise_sig2 y x w - l2Term prior_w2_sig2 w - l1Term scale_global w -
    (match groups with
     | none => 0
     | some gs => groupTerm sqrtQ scale_groups gs w)

end BayesLinearLasso

/-! ## RffGradPen (sparse.py lines 88-223) -/

namespace RffGradPen

variable {n K D : ℕ}

-- Line 181: `-1/(2*self.noise_sig2)*tf.transpose(resid)@(resid)` with
-- `resid = y_tf - h_tf@w`; `h` is the hidden-feature matrix.
def likTerm (noise_sig2 : ℚ) (y : Fin n → ℚ) (h : Fin n → Fin K → ℚ) (w : Fin K → ℚ) : ℚ :=
  -1 / (2 * noise_sig2) * ∑ i, (y i - ∑ k, h i k * w k) * (y i - ∑ k, h i k * w k)

-- Line 184: `- 1/(2*self.prior_w2_sig2)*tf.transpose(w)@w`.
def l2Term (prior_w2_sig2 : ℚ) (w : Fin K → ℚ) : ℚ :=
  -(1 / (2 * prior_w2_sig2)) * ∑ k, w k * w k

-- Lines 199-201: the group-level penalty always takes the square root.
def groupPenalty (sqrtQ : ℚ → ℚ) (scale_groups : List ℚ)
    (Ax_groups : List (Matrix (Fin K) (Fin K) ℚ)) (w : Fin K → ℚ) : ℚ :=
  ((scale_groups.zip Ax_groups).map (fun p => -(p.1 * sqrtQ (quadForm w p.2)))).sum

-- Lines 177-203.  `h` abstracts the precomputed `h_tf = hidden_features(x)`
-- and `J` the autodiff jacobian `compute_jacobian(x)` (lines 125-140), from
-- which the penalty matrices are computed exactly as `compute_Ax` does.
def unnormalized_log_prob (sqrtQ : ℚ → ℚ) (noise_sig2 prior_w2_sig2 : ℚ)
    (scale_global : Fin D → ℚ) (penalty_type : String)
    (groups : Option (List (List (Fin D)))) (scale_groups : List ℚ)
    (y : Fin n → ℚ) (h : Fin n → Fin K → ℚ) (J : Fin n → Fin K → Fin D → ℚ)
    (w : Fin K → ℚ) : ℚ :=
  likTerm noise_sig2 y h w + l2Term prior_w2_sig2 w
    + (∑ d, gradPenTerm sqrtQ penalty_type (scale_global d) (compute_Ax_d J d) w)
    + (match groups with
       | none => 0
       | some gs => groupPenalty sqrtQ scale_groups (compute_Ax_groups J gs) w)

end RffGradPen

/-! ## RffGradPenHyper (sparse.py lines 226-372) -/

namespace RffGradPenHyper

variable {n K D : ℕ}

-- Line 308: `x @ tf.transpose(self.w_tf)`.
def xw (x : Fin n → Fin D → ℚ) (W : Fin K → Fin D → ℚ) : Fin n → Fin K → ℚ :=
  fun i k => ∑ d, x i d * W k d

-- Lines 266, 284-285: `act(x_w_tf / lengthscale + b)` with
-- `act z = sqrt(2/dim_hidden) * cos z`; `cosQ` abstracts tf.math.cos.
def hidden_features_precompute (sqrtQ cosQ : ℚ → ℚ) (xwv : Fin n → Fin K → ℚ)
    (b : Fin K → ℚ) (l : ℚ) : Fin n → Fin K → ℚ :=
  fun i k => sqrtQ (2 / (K : ℚ)) * cosQ (xwv i k / l + b k)

-- Line 321: the analytical jacobian
-- `-sqrt(2/K) * w[k,d] / l * sin(x_w[i,k] / l + b[k])`.
def jacobian (sqrtQ sinQ : ℚ → ℚ) (W : Fin K → Fin D → ℚ) (b : Fin K → ℚ) (l : ℚ)
    (xwv : Fin n → Fin K → ℚ) : Fin n → Fin K → Fin D → ℚ :=
  fun i k d => -(sqrtQ (2 / (K : ℚ))) * W k d / l * sinQ (xwv i k / l + b k)

-- Line 327.
def likTerm (noise_sig2 : ℚ) (y : Fin n → ℚ) (h : Fin n → Fin K → ℚ) (w : Fin K → ℚ) : ℚ :=
  -1 / (2 * noise_sig2) * ∑ i, (y i - ∑ k, h i k * w k) * (y i - ∑ k, h i k * w k)

-- Line 330.
def l2Term (prior_w2_sig2 : ℚ) (w : Fin K → ℚ) : ℚ :=
  -(1 / (2 * prior_w2_sig2)) * ∑ k, w k * w k

-- Lines 311-353: `unnormalized_log_prob(w, l, prior_w2_sig2)`; the hidden
-- features, jacobian and penalty matrices are recomputed from the current
-- lengthscale `l`, and the two inverse-gamma terms (α = β = 1) are evaluated
-- at `prior_w2_sig2` and at `l` (line 336).
def unnormalized_log_prob (sqrtQ cosQ sinQ logQ lgammaQ : ℚ → ℚ) (noise_sig2 : ℚ)
    (scale_global : Fin D → ℚ) (penalty_type : String)
    (y : Fin n → ℚ) (x : Fin n → Fin D → ℚ) (W : Fin K → Fin D → ℚ) (b : Fin K → ℚ)
    (w : Fin K → ℚ) (l prior_w2_sig2 : ℚ) : ℚ :=
  likTerm noise_sig2 y (hidden_features_precompute sqrtQ cosQ (xw x W) b l) w
    + l2Term prior_w2_sig2 w
    + log_prob_invgamma logQ lgammaQ prior_w2_sig2 1 1
    + log_prob_invgamma logQ lgammaQ l 1 1
    + ∑ d, gradPenTerm sqrtQ penalty_type (scale_global d)
        (compute_Ax_d (jacobian sqrtQ sinQ W b l (xw x W)) d) w

-- The same log-posterior as claim C4 words it, with the lengthscale
-- hyperprior evaluated at ℓ² instead of the code's ℓ.
def claimedLogProb (sqrtQ cosQ sinQ logQ lgammaQ : ℚ → ℚ) (noise_sig2 : ℚ)
    (scale_global : Fin D → ℚ) (penalty_type : String)
    (y : Fin n → ℚ) (x : Fin n → Fin D → ℚ) (W : Fin K → Fin D → ℚ) (b : Fin K → ℚ)
    (w : Fin K → ℚ) (l prior_w2_sig2 : ℚ) : ℚ :=
  likTerm noise_sig2 y (hidden_features_precompute sqrtQ cosQ (xw x W) b l) w
    + l2Term prior_w2_sig2 w
    + specInvGammaLogDensity logQ lgammaQ prior_w2_sig2 1 1
    + specInvGammaLogDensity logQ lgammaQ (l ^ 2) 1 1
    + ∑ d, gradPenTerm sqrtQ penalty_type (scale_global d)
        (compute_Ax_d (jacobian sqrtQ sinQ W b l (xw x W)) d) w

end RffGradPenHyper

/-! ## RffGradPenHyper_v2 (sparse.py lines 375-678) -/

namespace RffGradPenHyperV2

variable {n K D : ℕ}

-- Line 438: `h @ tf.reshape(w2, (-1,1))`.
def forward (h : Fin n → Fin K → ℚ) (w2 : Fin K → ℚ) : Fin n → ℚ :=
  fun i => ∑ k, h i k * w2 k

-- Line 493 with `resid = y - self.forward(w2, h=h)` (line 490).
def likTerm (noise_sig2 : ℚ) (y : Fin n → ℚ) (h : Fin n → Fin K → ℚ) (w2 : Fin K → ℚ) : ℚ :=
  -1 / (2 * noise_sig2) * ∑ i, (y i - forward h w2 i) * (y i - forward h w2 i)

-- Line 496.
def l2Term (prior_w2_sig2 : ℚ) (w2 : Fin K → ℚ) : ℚ :=
  -(1 / (2 * prior_w2_sig2)) * ∑ k, w2 k * w2 k

-- Lines 472-521: `unnormalized_log_prob(w2, lengthscale, prior_w2_sig2)`.
-- With `infer_hyper` the hidden features and penalty matrices are recomputed
-- from the passed lengthscale (lines 481-484); otherwise the precomputed
-- values at the model's own `lengthscale0`/`prior_w2_sig20` are used (lines
-- 485-488).  The hidden features and jacobian follow the same formulas as
-- RffGradPenHyper (lines 410, 428, 445); the lengthscale hyperprior is
-- evaluated at `lengthscale**2` (line 504).
def unnormalized_log_prob (sqrtQ cosQ sinQ logQ lgammaQ : ℚ → ℚ) (noise_sig2 : ℚ)
    (scale_global : Fin D → ℚ) (penalty_type : String)
    (lengthscale0 prior_w2_sig20 : ℚ)
    (y : Fin n → ℚ) (x : Fin n → Fin D → ℚ) (W : Fin K → Fin D → ℚ) (b : Fin K → ℚ)
    (infer_hyper : Bool) (w2 : Fin K → ℚ) (lengthscale prior_w2_sig2 : ℚ) : ℚ :=
  let l := if infer_hyper then lengthscale else lengthscale0
  let pw2 := if infer_hyper then prior_w2_sig2 else prior_w2_sig20
  likTerm noise_sig2 y
      (RffGradPenHyper.hidden_features_precompute sqrtQ cosQ (RffGradPenHyper.xw x W) b l) w2
    + l2Term pw2 w2
    + log_prob_invgamma logQ lgammaQ pw2 1 1
    + log_prob_invgamma logQ lgammaQ (l ^ 2) 1 1
    + ∑ d, gradPenTerm sqrtQ penalty_type (scale_global d)
        (compute_Ax_d (RffGradPenHyper.jacobian sqrtQ sinQ W b l (RffGradPenHyper.xw x W)) d) w2

end RffGradPenHyperV2

/-! ## RffBeta.compute_loss_gradients (sparse.py lines 932-964)

The two variational shape parameters are `s_a_trans` and `s_b_trans`.  A
`.grad` buffer is an `Option ℚ` (`none` = PyTorch's unset gradient);
`backward` on a scalar accumulates that scalar's true derivative into the
buffer, creating it when absent.  The derivative of `log q` with respect to
the two parameters is `(dq_a, dq_b)` and that of the KL divergence is
`(dkl_a, dkl_b)`; these are the values the two independent backward passes
deposit. -/

namespace RffBeta

structure BetaGrads where
  s_a_trans : Option ℚ
  s_b_trans : Option ℚ

structure BetaGradResult where
  s_a_trans_grad_q : ℚ
  s_b_trans_grad_q : ℚ
  s_a_trans_grad_kl : ℚ
  s_b_trans_grad_kl : ℚ
  s_a_trans_grad : ℚ
  s_b_trans_grad : ℚ

-- Lines 942-944: `if p.grad is not None: p.grad.zero_()`.
def zero_if_present (g : Option ℚ) : Option ℚ := g.map (fun _ => 0)

-- A `backward()` call: accumulate the derivative `d` into the buffer.
def backward_add (g : Option ℚ) (d : ℚ) : Option ℚ := some (g.getD 0 + d)

-- Lines 932-964, after the forward pass produced `log_lik`.
def compute_loss_gradients (log_lik dq_a dq_b dkl_a dkl_b temperature : ℚ)
    (init : BetaGrads) : BetaGradResult :=
  -- zero stale gradients (lines 942-944)
  let ga0 := zero_if_present init.s_a_trans
  let gb0 := zero_if_present init.s_b_trans
  -- log_q.backward() (lines 946-947)
  let ga1 := backward_add ga0 dq_a
  let gb1 := backward_add gb0 dq_b
  -- clone the score-function gradients (lines 949-950)
  let grad_q_a := ga1.getD 0
  let grad_q_b := gb1.getD 0
  -- p.grad.zero_() (line 953)
  let ga2 := ga1.map (fun _ => (0 : ℚ))
  let gb2 := gb1.map (fun _ => (0 : ℚ))
  -- kl.backward() (lines 955-956)
  let ga3 := backward_add ga2 dkl_a
  let gb3 := backward_add gb2 dkl_b
  -- clone the KL gradients (lines 958-959)
  let grad_kl_a := ga3.getD 0
  let grad_kl_b := gb3.getD 0
  -- assemble the loss gradient by hand (lines 962-964)
  { s_a_trans_grad_q := grad_q_a, s_b_trans_grad_q := grad_q_b,
    s_a_trans_grad_kl := grad_kl_a, s_b_trans_grad_kl := grad_kl_b,
    s_a_trans_grad := -log_lik * grad_q_a + temperature * grad_kl_a,
    s_b_trans_grad := -log_lik * grad_q_b + temperature * grad_kl_b }

end RffBeta

/-! ## RffGradPenHyper_v2.train_map_old (sparse.py lines 531-584)

The external `tfp.optimizer.bfgs_minimize` returns a results record carrying
`position`, `converged`, `failed` and `num_iterations`.  `train_map_old`
prints the two flags (lines 569-570) and unpacks only `position` into the
returned `w2` and the mutated `lengthscale`/`prior_w2_sig2` (lines 573-575);
no exception is raised on failure. -/

structure OptimResults (K : ℕ) where
  position : Fin (K + 2) → ℚ
  converged : Bool
  failed : Bool
  num_iterations : ℕ

structure MapEstimate (K : ℕ) where
  w2 : Fin K → ℚ
  lengthscale : ℚ
  prior_w2_sig2 : ℚ

-- Lines 572-584: `w2 = position[:-2]`, `lengthscale = position[-2]`,
-- `prior_w2_sig2 = position[-1]`; the caller-visible outcome.
def train_map_old_result (K : ℕ) (r : OptimResults K) : MapEstimate K :=
  { w2 := fun i => r.position (Fin.castAdd 2 i),
    lengthscale := r.position ⟨K, by omega⟩,
    prior_w2_sig2 := r.position ⟨K + 1, by omega⟩ }

/-! ## The cosine-RFF feature map over ℝ (for the Jacobian claim)

`rffHidden` is one row of `hidden_features` (sparse.py lines 410, 422-428):
`sqrt(2/K) * cos(x·W[k] / ℓ + b[k])`; `jacobian_hidden_features` is one entry
of the analytic jacobian at line 445. -/

noncomputable def rffHidden (K D : ℕ) (W : Fin K → Fin D → ℝ) (b : Fin K → ℝ) (l : ℝ)
    (x : Fin D → ℝ) (k : Fin K) : ℝ :=
  Real.sqrt (2 / (K : ℝ)) * Real.cos ((∑ d, x d * W k d) / l + b k)

noncomputable def jacobian_hidden_features (K D : ℕ) (W : Fin K → Fin D → ℝ) (b : Fin K → ℝ)
    (l : ℝ) (x : Fin D → ℝ) (k : Fin K) (d : Fin D) : ℝ :=
  -Real.sqrt (2 / (K : ℝ)) * W k d / l * Real.sin ((∑ d', x d' * W k d') / l + b k)

/-! ## Helper lemmas -/

theorem sum_mul_self_eq_sum_sq {n : ℕ} (f : Fin n → ℚ) :
    ∑ i, f i * f i = ∑ i, f i ^ 2 :=
  Finset.sum_congr rfl fun i _ => (pow_two (f i)).symm

theorem quadForm_eq {K : ℕ} (w : Fin K → ℚ) (A : Matrix (Fin K) (Fin K) ℚ) :
    quadForm w A = ∑ k, ∑ k', w k * A k k' * w k' := by
  unfold quadForm
  simp only [Matrix.dotProduct, Matrix.mulVec, Finset.mul_sum]
  exact Finset.sum_congr rfl fun k _ => Finset.sum_congr rfl fun k' _ => (mul_assoc _ _ _).symm

theorem log_prob_invgamma_eq_spec (logQ lgammaQ : ℚ → ℚ) (z alpha beta : ℚ) :
    log_prob_invgamma logQ lgammaQ z alpha beta
      = specInvGammaLogDensity logQ lgammaQ z alpha beta := by
  unfold log_prob_invgamma specInvGammaLogDensity
  ring

theorem compute_Ax_d_entry {n K D : ℕ} (J : Fin n → Fin K → Fin D → ℚ) (d : Fin D)
    (k k' : Fin K) :
    compute_Ax_d J d k k' = 1 / (n : ℚ) * ∑ m, J m k d * J m k' d := by
  unfold compute_Ax_d Jmat
  simp [Matrix.smul_apply, Matrix.mul_apply, Matrix.transpose_apply, smul_eq_mul]

theorem foldl_add_apply {K : ℕ} :
    ∀ (L : List (Matrix (Fin K) (Fin K) ℚ)) (A : Matrix (Fin K) (Fin K) ℚ) (k k' : Fin K),
      (L.foldl (· + ·) A) k k' = A k k' + (L.map (fun M => M k k')).sum := by
  intro L
  induction L with
  | nil => intro A k k'; simp
  | cons M Ms ih =>
    intro A k k'
    rw [List.foldl_cons, ih, List.map_cons, List.sum_cons, Matrix.add_apply]
    ring

/-! ## Claim C1 -/

/-- C1 (counterexample): in `BayesLinearLasso` the Gaussian likelihood
contribution at `noise_sig2 = 1`, `y = (1)`, `x = (1)`, `w = (0)` is
`-1` (the code multiplies by `-1/noise_sig2`), not the claimed
`-1/(2*noise_sig2) * ‖y - x w‖² = -1/2`. -/
theorem C1_cex :
    BayesLinearLasso.likTerm (n := 1) (D := 1) 1 (fun _ => 1) (fun _ _ => 1) (fun _ => 0)
      ≠ specGaussLik (n := 1) (K := 1) 1 (fun _ => 1) (fun _ _ => 1) (fun _ => 0) := by
  norm_num [BayesLinearLasso.likTerm, BayesLinearLasso.resid, specGaussLik, Fin.sum_univ_one]

/-- C1 (amended): the Gaussian likelihood contribution to the unnormalized
log-posterior equals `-1/(2*noise_sig2) * ‖y - H w‖²` for `RffGradPen`,
`RffGradPenHyper` and `RffGradPenHyper_v2` (with `H` the hidden features),
while `BayesLinearLasso` uses `-1/noise_sig2 * ‖y - x w‖²`, i.e. without the
factor 2. -/
theorem C1_likelihood :
    (∀ (n K : ℕ) (noise_sig2 : ℚ) (y : Fin n → ℚ) (h : Fin n → Fin K → ℚ) (w : Fin K → ℚ),
        RffGradPen.likTerm noise_sig2 y h w = specGaussLik noise_sig2 y h w)
  ∧ (∀ (n K : ℕ) (noise_sig2 : ℚ) (y : Fin n → ℚ) (h : Fin n → Fin K → ℚ) (w : Fin K → ℚ),
        RffGradPenHyper.likTerm noise_sig2 y h w = specGaussLik noise_sig2 y h w)
  ∧ (∀ (n K : ℕ) (noise_sig2 : ℚ) (y : Fin n → ℚ) (h : Fin n → Fin K → ℚ) (w : Fin K → ℚ),
        RffGradPenHyperV2.likTerm noise_sig2 y h w = specGaussLik noise_sig2 y h w)
  ∧ (∀ (n D : ℕ) (noise_sig2 : ℚ) (y : Fin n → ℚ) (x : Fin n → Fin D → ℚ) (w : Fin D → ℚ),
        BayesLinearLasso.likTerm noise_sig2 y x w
          = -(1 / noise_sig2) * ∑ i, (y i - ∑ d, x i d * w d) ^ 2) := by
  refine ⟨?_, ?_, ?_, ?_⟩
  · intro n K noise_sig2 y h w
    unfold RffGradPen.likTerm specGaussLik
    simp only [← pow_two]
    ring
  · intro n K noise_sig2 y h w
    unfold RffGradPenHyper.likTerm specGaussLik
    simp only [← pow_two]
    ring
  · intro n K noise_sig2 y h w
    unfold RffGradPenHyperV2.likTerm RffGradPenHyperV2.forward specGaussLik
    simp only [← pow_two]
    ring
  · intro n D noise_sig2 y x w
    unfold BayesLinearLasso.likTerm BayesLinearLasso.resid
    simp only [← pow_two]
    ring

/-! ## Claim C4 -/

/-- C4 (counterexample): in `RffGradPenHyper` the lengthscale hyperprior is
evaluated at `ℓ` itself (sparse.py line 336), not at `ℓ²`: at lengthscale 2
(with `log` and the trigonometric functions instantiated by `id` and
`lgamma` by the zero function) the code's log-posterior differs from the
log-posterior the claim describes. -/
theorem C4_cex :
    RffGradPenHyper.unnormalized_log_prob (n := 1) (K := 1) (D := 1)
        id id id id (fun _ => 0) 1 (fun _ => 0) "l1"
        (fun _ => 0) (fun _ _ => 0) (fun _ _ => 0) (fun _ => 0) (fun _ => 0) 2 1
      ≠ RffGradPenHyper.claimedLogProb (n := 1) (K := 1) (D := 1)
        id id id id (fun _ => 0) 1 (fun _ => 0) "l1"
        (fun _ => 0) (fun _ _ => 0) (fun _ _ => 0) (fun _ => 0) (fun _ => 0) 2 1 := by
  simp only [RffGradPenHyper.unnormalized_log_prob, RffGradPenHyper.claimedLogProb,
    RffGradPenHyper.likTerm, RffGradPenHyper.l2Term, log_prob_invgamma,
    specInvGammaLogDensity, gradPenTerm, Fin.sum_univ_one]
  norm_num

/-- C4 (amended): when the hyperparameters are inferred, both hyper models'
unnormalized log-posteriors contain two inverse-gamma terms with log-density
`-(1+α) log x - β/x - (lgamma α - α log β)` (α = β = 1); both evaluate one at
`prior_w2_sig2`, but `RffGradPenHyper_v2` evaluates the lengthscale term at
`ℓ²` while `RffGradPenHyper` evaluates it at `ℓ` itself. -/
theorem C4_hyperpriors :
    (∀ (n K D : ℕ) (sqrtQ cosQ sinQ logQ lgammaQ : ℚ → ℚ) (noise_sig2 : ℚ)
        (scale_global : Fin D → ℚ) (penalty_type : String) (l0 p0 : ℚ)
        (y : Fin n → ℚ) (x : Fin n → Fin D → ℚ) (W : Fin K → Fin D → ℚ) (b : Fin K → ℚ)
        (w2 : Fin K → ℚ) (lengthscale prior_w2_sig2 : ℚ),
        RffGradPenHyperV2.unnormalized_log_prob sqrtQ cosQ sinQ logQ lgammaQ noise_sig2
            scale_global penalty_type l0 p0 y x W b true w2 lengthscale prior_w2_sig2
          = RffGradPenHyperV2.likTerm noise_sig2 y
              (RffGradPenHyper.hidden_features_precompute sqrtQ cosQ
                (RffGradPenHyper.xw x W) b lengthscale) w2
            + RffGradPenHyperV2.l2Term prior_w2_sig2 w2
            + specInvGammaLogDensity logQ lgammaQ prior_w2_sig2 1 1
            + specInvGammaLogDensity logQ lgammaQ (lengthscale ^ 2) 1 1
            + ∑ d, gradPenTerm sqrtQ penalty_type (scale_global d)
                (compute_Ax_d
                  (RffGradPenHyper.jacobian sqrtQ sinQ W b lengthscale
                    (RffGradPenHyper.xw x W)) d) w2)
  ∧ (∀ (n K D : ℕ) (sqrtQ cosQ sinQ logQ lgammaQ : ℚ → ℚ) (noise_sig2 : ℚ)
        (scale_global : Fin D → ℚ) (penalty_type : String)
        (y : Fin n → ℚ) (x : Fin n → Fin D → ℚ) (W : Fin K → Fin D → ℚ) (b : Fin K → ℚ)
        (w : Fin K → ℚ) (l prior_w2_sig2 : ℚ),
        RffGradPenHyper.unnormalized_log_prob sqrtQ cosQ sinQ logQ lgammaQ noise_sig2
            scale_global penalty_type y x W b w l prior_w2_sig2
          = RffGradPenHyper.likTerm noise_sig2 y
              (RffGradPenHyper.hidden_features_precompute sqrtQ cosQ
                (RffGradPenHyper.xw x W) b l) w
            + RffGradPenHyper.l2Term prior_w2_sig2 w
            + specInvGammaLogDensity logQ lgammaQ prior_w2_sig2 1 1
            + specInvGammaLogDensity logQ lgammaQ l 1 1
            + ∑ d, gradPenTerm sqrtQ penalty_type (scale_global d)
                (compute_Ax_d
                  (RffGradPenHyper.jacobian sqrtQ sinQ W b l (RffGradPenHyper.xw x W)) d) w)
  ∧ (∀ (logQ lgammaQ : ℚ → ℚ) (z alpha beta : ℚ),
        log_prob_invgamma logQ lgammaQ z alpha beta
          = specInvGammaLogDensity logQ lgammaQ z alpha beta) := by
  refine ⟨?_, ?_, fun logQ lgammaQ z alpha beta => log_prob_invgamma_eq_spec _ _ _ _ _⟩
  · intro n K D sqrtQ cosQ sinQ logQ lgammaQ noise_sig2 scale_global penalty_type l0 p0
      y x W b w2 lengthscale prior_w2_sig2
    simp only [RffGradPenHyperV2.unnormalized_log_prob, if_true,
      log_prob_invgamma_eq_spec]
  · intro n K D sqrtQ cosQ sinQ logQ lgammaQ noise_sig2 scale_global penalty_type
      y x W b w l prior_w2_sig2
    simp only [RffGradPenHyper.unnormalized_log_prob, log_prob_invgamma_eq_spec]

/-! ## Claim C6 -/

/-- C6: the gradient-norm penalty matrices are
`A_d[k,k'] = (1/n) * Σ_m J[m,k,d] * J[m,k',d]` (a K×K matrix), a group's
matrix is the entrywise sum of the `A_d` over the group, and the penalty term
subtracted from the log-posterior for a weight vector `w` is
`scale * sqrt(wᵀ A w)` for penalty type "l1" and `scale * wᵀ A w` for
penalty type "l2". -/
theorem C6_grad_penalty :
    (∀ (n K D : ℕ) (J : Fin n → Fin K → Fin D → ℚ) (d : Fin D) (k k' : Fin K),
        compute_Ax_d J d k k' = 1 / (n : ℚ) * ∑ m, J m k d * J m k' d)
  ∧ (∀ (n K D : ℕ) (J : Fin n → Fin K → Fin D → ℚ) (g : List (Fin D)) (k k' : Fin K),
        group_Ax J g k k'
          = (g.map (fun i => 1 / (n : ℚ) * ∑ m, J m k i * J m k' i)).sum)
  ∧ (∀ (K : ℕ) (sqrtQ : ℚ → ℚ) (scale : ℚ) (A : Matrix (Fin K) (Fin K) ℚ) (w : Fin K → ℚ),
        gradPenTerm sqrtQ "l1" scale A w
            = -(scale * sqrtQ (∑ k, ∑ k', w k * A k k' * w k'))
          ∧ gradPenTerm sqrtQ "l2" scale A w
            = -(scale * ∑ k, ∑ k', w k * A k k' * w k')) := by
  refine ⟨fun n K D J d k k' => compute_Ax_d_entry J d k k', ?_, ?_⟩
  · intro n K D J g k k'
    unfold group_Ax
    rw [foldl_add_apply, List.map_map]
    have h0 : (0 : Matrix (Fin K) (Fin K) ℚ) k k' = 0 := rfl
    rw [h0, zero_add]
    have hf : ((fun M : Matrix (Fin K) (Fin K) ℚ => M k k') ∘ compute_Ax_d J)
        = fun i => 1 / (n : ℚ) * ∑ m, J m k i * J m k' i :=
      funext fun i => compute_Ax_d_entry J i k k'
    rw [hf]
  · intro K sqrtQ scale A w
    constructor
    · rw [gradPenTerm, if_pos rfl, quadForm_eq]
    · rw [gradPenTerm, if_neg (by decide), if_pos rfl, quadForm_eq]

/-! ## Claim C7 -/

/-- C7: after `RffBeta.compute_loss_gradients` runs, the stored gradient of
each variational shape parameter equals
`-log_lik * d(log q)/dθ + temperature * d(KL)/dθ`, where the two factors are
exactly the gradients deposited by the two separate backward passes (and the
result does not depend on whatever stale gradients were present before). -/
theorem C7_score_gradient (log_lik dq_a dq_b dkl_a dkl_b temperature : ℚ)
    (init : RffBeta.BetaGrads) :
    (RffBeta.compute_loss_gradients log_lik dq_a dq_b dkl_a dkl_b temperature
        init).s_a_trans_grad = -log_lik * dq_a + temperature * dkl_a
  ∧ (RffBeta.compute_loss_gradients log_lik dq_a dq_b dkl_a dkl_b temperature
        init).s_b_trans_grad = -log_lik * dq_b + temperature * dkl_b
  ∧ (RffBeta.compute_loss_gradients log_lik dq_a dq_b dkl_a dkl_b temperature
        init).s_a_trans_grad_q = dq_a
  ∧ (RffBeta.compute_loss_gradients log_lik dq_a dq_b dkl_a dkl_b temperature
        init).s_b_trans_grad_q = dq_b
  ∧ (RffBeta.compute_loss_gradients log_lik dq_a dq_b dkl_a dkl_b temperature
        init).s_a_trans_grad_kl = dkl_a
  ∧ (RffBeta.compute_loss_gradients log_lik dq_a dq_b dkl_a dkl_b temperature
        init).s_b_trans_grad_kl = dkl_b := by
  obtain ⟨ga, gb⟩ := init
  cases ga <;> cases gb <;>
    simp [RffBeta.compute_loss_gradients, RffBeta.zero_if_present, RffBeta.backward_add]

/-! ## Claim C8 -/

/-- C8 (counterexample): two BFGS outcomes with the same position but opposite
`converged`/`failed` flags produce identical caller-visible results of
`train_map_old`, so the optimization status is not surfaced to the caller. -/
theorem C8_cex :
    train_map_old_result 1 ⟨![1, 2, 3], true, false, 10⟩
        = train_map_old_result 1 ⟨![1, 2, 3], false, true, 1000⟩
  ∧ (OptimResults.converged (K := 1) ⟨![1, 2, 3], true, false, 10⟩)
      ≠ (OptimResults.converged (K := 1) ⟨![1, 2, 3], false, true, 1000⟩) := by
  exact ⟨rfl, by decide⟩

/-- C8 (amended): non-convergence or failure of the MAP optimization is not
raised as a fatal error, but it is not surfaced to the caller either:
`train_map_old` only prints the `converged`/`failed` flags, and its
caller-visible outcome (`w2`, `lengthscale`, `prior_w2_sig2`) depends only on
the optimizer's `position`, never on the flags. -/
theorem C8_flag_independence (K : ℕ) (r r' : OptimResults K)
    (h : r.position = r'.position) :
    train_map_old_result K r = train_map_old_result K r' := by
  unfold train_map_old_result
  rw [h]

/-- C8 (witness): instantiating the flag-independence theorem at a concrete
pair of optimizer results. -/
theorem C8_wit :
    train_map_old_result 1 ⟨![0, 5, 7], true, false, 3⟩
      = train_map_old_result 1 ⟨![0, 5, 7], false, false, 4⟩ :=
  C8_flag_independence 1 _ _ rfl

/-! ## Claim C10 -/

/-- C10: the `frac_lookback` parameter of `train` is never read by the loop
body; two runs identical except for `frac_lookback` produce identical
results. -/
theorem C10_frac_lookback_unused (n : ℕ) (fss fl1 fl2 : ℚ) (seq : ℕ → ℚ) :
    train n fss fl1 seq = train n fss fl2 seq := rfl

/-! ## Lemmas about the training loop -/

theorem truncQ_intCast (z : ℤ) : truncQ ((z : ℚ)) = z := by
  unfold truncQ
  by_cases h : (0 : ℚ) ≤ (z : ℚ)
  · rw [if_pos h, Int.floor_intCast]
  · rw [if_neg h, Int.ceil_intCast]

theorem temperature_kl_100_eq_one_iff (e : ℕ) : temperature_kl 100 e = 1 ↔ 10 ≤ e := by
  unfold temperature_kl
  have h100 : ((100 : ℕ) : ℚ) / 10 = 10 := by norm_num
  rw [h100]
  by_cases h : e < 10
  · rw [if_pos (by exact_mod_cast h)]
    constructor
    · intro hq
      have h10 : (e : ℚ) = 10 := by field_simp at hq; exact_mod_cast hq
      have : e = 10 := by exact_mod_cast h10
      omega
    · intro hle
      exact absurd hle (by omega)
  · rw [if_neg (not_lt.mpr (by exact_mod_cast Nat.le_of_not_lt h))]
    constructor
    · intro _; omega
    · intro _; rfl

theorem update_loss_best_of_ne_one (t l : ℚ) (ob : Option ℚ) (h : ¬ t = 1) :
    update_loss_best t l ob = ob := by
  simp [update_loss_best, h]

theorem update_loss_best_one_none (l : ℚ) : update_loss_best 1 l none = some l := by
  simp [update_loss_best, betterThan]

theorem update_loss_best_one_some (l b : ℚ) :
    update_loss_best 1 l (some b) = if l < b then some l else some b := by
  by_cases h : l < b
  · simp [update_loss_best, betterThan, h]
  · simp [update_loss_best, betterThan, h]

theorem listMin_some_of_ne_nil : ∀ (L : List ℚ), L ≠ [] → ∃ m, listMin L = some m := by
  intro L hL
  cases L with
  | nil => exact absurd rfl hL
  | cons x xs =>
    cases h2 : listMin xs with
    | none => exact ⟨x, by simp [listMin, h2]⟩
    | some m => exact ⟨min x m, by simp [listMin, h2]⟩

theorem listMin_mem : ∀ (L : List ℚ) (m : ℚ), listMin L = some m → m ∈ L := by
  intro L
  induction L with
  | nil => intro m h; simp [listMin] at h
  | cons x xs ih =>
    intro m h
    rw [listMin] at h
    cases h2 : listMin xs with
    | none =>
      rw [h2] at h
      simp only [Option.some.injEq] at h
      rw [← h]
      exact List.mem_cons_self x xs
    | some mm =>
      rw [h2] at h
      simp only [Option.some.injEq] at h
      rcases le_total x mm with hle | hle
      · rw [← h, min_eq_left hle]
        exact List.mem_cons_self x xs
      · rw [← h, min_eq_right hle]
        exact List.mem_cons_of_mem x (ih mm h2)

theorem listMin_replicate : ∀ (m : ℕ) (a : ℚ),
    listMin (List.replicate m a) = if m = 0 then none else some a := by
  intro m a
  induction m with
  | zero => simp [listMin]
  | succ k ih =>
    rw [List.replicate_succ, listMin, ih]
    cases k with
    | zero => simp
    | succ j => simp

theorem mem_drop_range (n k a : ℕ) (h : a ∈ (List.range n).drop k) : k ≤ a ∧ a < n := by
  obtain ⟨i, hi, hia⟩ := List.mem_iff_getElem.mp h
  have hlen : i < n - k := by
    have := hi
    simpa [List.length_drop, List.length_range] using this
  rw [List.getElem_drop, List.getElem_range] at hia
  omega

theorem drop_replicate (a : ℚ) : ∀ (k m : ℕ), (List.replicate m a).drop k = List.replicate (m - k) a := by
  intro k
  induction k with
  | zero => intro m; simp
  | succ j ih =>
    intro m
    cases m with
    | zero => simp
    | succ i =>
      rw [List.replicate_succ, List.drop_succ_cons, ih, Nat.succ_sub_succ]

theorem epochLookback_eq (e : ℕ) : epochLookback 100 e = max 1 ((e : ℤ) - 25) := by
  unfold epochLookback
  have h : ((e : ℚ) - (1 / 4) * ((100 : ℕ) : ℚ)) = (((e : ℤ) - 25 : ℤ) : ℚ) := by
    push_cast
    ring
  rw [h, truncQ_intCast]

theorem breakCond_false_of_le (e : ℕ) (he : e ≤ 76) (L : List ℚ) (ob : Option ℚ) :
    breakCond (1 / 2) 100 e L ob = false := by
  have h1 : max 1 ((e : ℤ) - 25) ≤ 51 := by
    have : (e : ℤ) - 25 ≤ 51 := by omega
    omega
  have h2 : ¬ ((epochLookback 100 e : ℤ) : ℚ) > (1 / 2 : ℚ) * ((100 : ℕ) : ℚ) + 1 := by
    rw [epochLookback_eq]
    have hle : ((max 1 ((e : ℤ) - 25) : ℤ) : ℚ) ≤ 51 := by exact_mod_cast h1
    have h3 : (1 / 2 : ℚ) * ((100 : ℕ) : ℚ) + 1 = 51 := by norm_num
    rw [h3]
    exact not_lt.mpr hle
  unfold breakCond
  rw [if_neg h2]

theorem breakCond_const (fss : ℚ) (n e m : ℕ) (ob : Option ℚ)
    (hob : ob = none ∨ ob = some 1) :
    breakCond fss n e (List.replicate m 1) ob = false := by
  unfold breakCond
  split
  · rcases hob with h | h
    · rw [h]
    · rw [h, drop_replicate, listMin_replicate]
      by_cases hm : m - (epochLookback n e).toNat = 0
      · rw [if_pos hm]
      · rw [if_neg hm]
        show decide (((1 : ℚ) - 1) / |(1 : ℚ)| < 0) = false
        apply decide_eq_false
        norm_num
  · rfl

theorem trainStep_best_inv (seq : ℕ → ℚ) (e : ℕ) (ob : Option ℚ)
    (h1 : e ≤ 10 → ob = none)
    (h2 : 10 < e → ∃ v, ob = some v ∧ (∀ j, 10 ≤ j → j < e → v ≤ seq j)
            ∧ ∃ j, 10 ≤ j ∧ j < e ∧ seq j = v) :
    (e + 1 ≤ 10 → update_loss_best (temperature_kl 100 e) (seq e) ob = none)
  ∧ (10 < e + 1 → ∃ v, update_loss_best (temperature_kl 100 e) (seq e) ob = some v
        ∧ (∀ j, 10 ≤ j → j < e + 1 → v ≤ seq j) ∧ ∃ j, 10 ≤ j ∧ j < e + 1 ∧ seq j = v) := by
  by_cases he : e < 10
  · have hne : ¬ temperature_kl 100 e = 1 := by
      rw [temperature_kl_100_eq_one_iff]
      omega
    rw [update_loss_best_of_ne_one _ _ _ hne]
    constructor
    · intro _
      exact h1 (by omega)
    · intro hgt
      exact absurd hgt (by omega)
  · have h1' : temperature_kl 100 e = 1 := (temperature_kl_100_eq_one_iff e).mpr (by omega)
    rw [h1']
    by_cases he10 : e = 10
    · subst he10
      rw [h1 (by omega), update_loss_best_one_none]
      constructor
      · intro hle
        exact absurd hle (by omega)
      · intro _
        refine ⟨seq 10, rfl, ?_, 10, by omega, by omega, rfl⟩
        intro j hj hj'
        have hj10 : j = 10 := by omega
        rw [hj10]
    · obtain ⟨v, hv, hvle, j0, hj0a, hj0b, hj0v⟩ := h2 (by omega)
      rw [hv, update_loss_best_one_some]
      by_cases hlt : seq e < v
      · rw [if_pos hlt]
        constructor
        · intro hle
          exact absurd hle (by omega)
        · intro _
          refine ⟨seq e, rfl, ?_, e, by omega, by omega, rfl⟩
          intro j hj hj'
          rcases Nat.lt_succ_iff_lt_or_eq.mp hj' with h | h
          · exact le_of_lt (lt_of_lt_of_le hlt (hvle j hj h))
          · rw [h]
      · rw [if_neg hlt]
        constructor
        · intro hle
          exact absurd hle (by omega)
        · intro _
          refine ⟨v, rfl, ?_, j0, hj0a, by omega, hj0v⟩
          intro j hj hj'
          rcases Nat.lt_succ_iff_lt_or_eq.mp hj' with h | h
          · exact hvle j hj h
          · rw [h]
            exact le_of_not_lt hlt

theorem breakCond_77 (seq : ℕ → ℚ) (B : ℚ)
    (hBlow : ∀ j, 10 ≤ j → j ≤ 50 → B ≤ seq j)
    (hBmem : ∃ j, 10 ≤ j ∧ j ≤ 50 ∧ seq j = B)
    (hlate : ∀ j, 51 ≤ j → B < seq j)
    (hB0 : B ≠ 0)
    (ob : Option ℚ)
    (hob : ∃ v, ob = some v ∧ (∀ j, 10 ≤ j → j < 78 → v ≤ seq j)
        ∧ ∃ j, 10 ≤ j ∧ j < 78 ∧ seq j = v) :
    breakCond (1 / 2) 100 77 ((List.range 78).map seq) ob = true := by
  obtain ⟨v, hv, hvle, j0, hj0a, hj0b, hj0v⟩ := hob
  obtain ⟨j2, hj2a, hj2b, hj2v⟩ := hBmem
  have hvB : v = B := by
    have hvleB : v ≤ B := by
      rw [← hj2v]
      exact hvle j2 hj2a (by omega)
    by_cases hj : j0 ≤ 50
    · have hBv : B ≤ v := by
        rw [← hj0v]
        exact hBlow j0 hj0a hj
      exact le_antisymm hvleB hBv
    · have hBlt : B < v := by
        rw [← hj0v]
        exact hlate j0 (by omega)
      exact ((not_le.mpr hBlt) hvleB).elim
  have hel : epochLookback 100 77 = 52 := by
    rw [epochLookback_eq]
    decide
  unfold breakCond
  rw [hel, if_pos (by push_cast; norm_num)]
  have htn : ((52 : ℤ)).toNat = 52 := rfl
  rw [hv, htn]
  have hdrop : ((List.range 78).map seq).drop 52 = ((List.range 78).drop 52).map seq :=
    (List.map_drop seq _ 52).symm
  rw [hdrop]
  have hne : ((List.range 78).drop 52).map seq ≠ [] := by
    intro hcon
    have hlen := congrArg List.length hcon
    simp [List.length_drop, List.length_range, List.length_map] at hlen
  obtain ⟨m, hm⟩ := listMin_some_of_ne_nil _ hne
  rw [hm]
  have hmm := listMin_mem _ _ hm
  obtain ⟨a, ha, haeq⟩ := List.mem_map.mp hmm
  obtain ⟨ha1, ha2⟩ := mem_drop_range 78 52 a ha
  have hBm : B < m := by
    rw [← haeq]
    exact hlate a (by omega)
  rw [hvB]
  show decide ((B - m) / |B| < 0) = true
  rw [decide_eq_true_eq]
  apply div_neg_of_neg_of_pos
  · linarith
  · exact abs_pos.mpr hB0

theorem trainAux_halts (seq : ℕ → ℚ) (B : ℚ)
    (hBlow : ∀ j, 10 ≤ j → j ≤ 50 → B ≤ seq j)
    (hBmem : ∃ j, 10 ≤ j ∧ j ≤ 50 ∧ seq j = B)
    (hlate : ∀ j, 51 ≤ j → B < seq j)
    (hB0 : B ≠ 0) :
    ∀ (r e : ℕ) (s : TrainState), e + r = 100 → e ≤ 77 →
      s.losses = (List.range e).map seq →
      (e ≤ 10 → s.loss_best = none) →
      (10 < e → ∃ v, s.loss_best = some v ∧ (∀ j, 10 ≤ j → j < e → v ≤ seq j)
          ∧ ∃ j, 10 ≤ j ∧ j < e ∧ seq j = v) →
      (trainAux 100 (1 / 2) seq r e s).losses.length ≤ 78 := by
  intro r
  induction r with
  | zero =>
    intro e s he hle _ _ _
    exact absurd he (by omega)
  | succ r ih =>
    intro e s he hle hlos hb1 hb2
    have hlos' : ((trainStep 100 (1 / 2) seq e s).1).losses = (List.range (e + 1)).map seq := by
      show s.losses ++ [seq e] = _
      rw [hlos, List.range_succ, List.map_append]
      simp
    have hbest := trainStep_best_inv seq e s.loss_best hb1 hb2
    rw [trainAux]
    by_cases he77 : e = 77
    · subst he77
      have hbrk : (trainStep 100 (1 / 2) seq 77 s).2 = true := by
        show breakCond (1 / 2) 100 77 (s.losses ++ [seq 77])
          (update_loss_best (temperature_kl 100 77) (seq 77) s.loss_best) = true
        have h78 : s.losses ++ [seq 77] = (List.range 78).map seq := hlos'
        rw [h78]
        exact breakCond_77 seq B hBlow hBmem hlate hB0 _ (hbest.2 (by omega))
      rw [if_pos hbrk, hlos']
      simp
    · have hbrk : (trainStep 100 (1 / 2) seq e s).2 = false := by
        show breakCond (1 / 2) 100 e (s.losses ++ [seq e])
          (update_loss_best (temperature_kl 100 e) (seq e) s.loss_best) = false
        exact breakCond_false_of_le e (by omega) _ _
      rw [if_neg (by simp only [hbrk]; exact Bool.false_ne_true)]
      exact ih (e + 1) _ (by omega) (by omega) hlos' (fun h => hbest.1 h) (fun h => hbest.2 h)

theorem trainAux_const (r : ℕ) : ∀ (e : ℕ) (s : TrainState),
    s.losses = List.replicate e 1 →
    (s.loss_best = none ∨ s.loss_best = some 1) →
    (trainAux 100 (1 / 2) (fun _ => (1 : ℚ)) r e s).losses = List.replicate (e + r) 1 := by
  induction r with
  | zero =>
    intro e s hlos _
    simpa using hlos
  | succ r ih =>
    intro e s hlos hb
    have hlos' : ((trainStep 100 (1 / 2) (fun _ => (1 : ℚ)) e s).1).losses
        = List.replicate (e + 1) 1 := by
      show s.losses ++ [(1 : ℚ)] = _
      rw [hlos, ← List.replicate_succ']
    have hb' : update_loss_best (temperature_kl 100 e) 1 s.loss_best = none
        ∨ update_loss_best (temperature_kl 100 e) 1 s.loss_best = some 1 := by
      rcases hb with h | h
      · rw [h]
        by_cases ht : temperature_kl 100 e = 1
        · right
          simp [update_loss_best, betterThan, ht]
        · left
          rw [update_loss_best_of_ne_one _ _ _ ht]
      · rw [h]
        right
        simp [update_loss_best, betterThan]
    have hbrk : (trainStep 100 (1 / 2) (fun _ => (1 : ℚ)) e s).2 = false := by
      show breakCond (1 / 2) 100 e (s.losses ++ [(1 : ℚ)])
        (update_loss_best (temperature_kl 100 e) 1 s.loss_best) = false
      rw [show s.losses ++ [(1 : ℚ)] = List.replicate (e + 1) 1 from hlos']
      exact breakCond_const (1 / 2) 100 e (e + 1) _ hb'
    rw [trainAux, if_neg (by simp only [hbrk]; exact Bool.false_ne_true)]
    have h2 := ih (e + 1) _ hlos' hb'
    have harith : e + 1 + r = e + (r + 1) := by omega
    rw [harith] at h2
    exact h2

theorem saveCond_one_false (n e : ℕ) (l : ℚ) (ob : Option ℚ) (h : e < n) :
    saveCond 1 n e l ob = false := by
  unfold saveCond
  have hle : ¬ ((e : ℚ) > 1 * (n : ℚ)) := by
    rw [one_mul]
    exact not_lt.mpr (by exact_mod_cast h.le)
  rw [decide_eq_false hle, Bool.false_and]

theorem trainAux_preserve (n : ℕ) (seq : ℕ → ℚ) : ∀ (r e : ℕ) (s : TrainState), e + r ≤ n →
    (trainAux n 1 seq r e s).saves = s.saves
  ∧ (trainAux n 1 seq r e s).saved_model = s.saved_model
  ∧ (trainAux n 1 seq r e s).reloaded = s.reloaded := by
  intro r
  induction r with
  | zero =>
    intro e s _
    exact ⟨rfl, rfl, rfl⟩
  | succ r ih =>
    intro e s hle
    have hsc : saveCond 1 n e (seq e) s.loss_best_saved = false :=
      saveCond_one_false n e _ _ (by omega)
    have hsaves : ((trainStep n 1 seq e s).1).saves = s.saves := by
      show (if saveCond 1 n e (seq e) s.loss_best_saved then s.saves ++ [e] else s.saves)
        = s.saves
      simp [hsc]
    have hsaved : ((trainStep n 1 seq e s).1).saved_model = s.saved_model := by
      show (if saveCond 1 n e (seq e) s.loss_best_saved then true else s.saved_model)
        = s.saved_model
      simp [hsc]
    have hrel : ((trainStep n 1 seq e s).1).reloaded = s.reloaded := rfl
    rw [trainAux]
    by_cases hbk : (trainStep n 1 seq e s).2 = true
    · rw [if_pos hbk]
      exact ⟨hsaves, hsaved, hrel⟩
    · rw [if_neg hbk]
      obtain ⟨i1, i2, i3⟩ := ih (e + 1) ((trainStep n 1 seq e s).1) (by omega)
      exact ⟨i1.trans hsaves, i2.trans hsaved, i3.trans hrel⟩

/-! ## Claim C2 -/

/-- C2 (counterexample): the constant loss sequence `1` plateaus (never
improves again) long before epoch 50, yet the loop runs all 100 epochs: the
stop requires a strictly negative percent improvement, and a plateau that
ties the best loss gives exactly zero. -/
theorem C2_cex :
    (train 100 (1 / 2) (1 / 4) (fun _ => (1 : ℚ))).losses.length = 100 := by
  have h := trainAux_const 100 0 initState rfl (Or.inl rfl)
  have htr : (train 100 (1 / 2) (1 / 4) (fun _ => (1 : ℚ))).losses
      = (trainAux 100 (1 / 2) (fun _ => (1 : ℚ)) 100 0 initState).losses := by
    show (if (trainAux 100 (1 / 2) (fun _ => (1 : ℚ)) 100 0 initState).saved_model = true
        then { trainAux 100 (1 / 2) (fun _ => (1 : ℚ)) 100 0 initState with reloaded := true }
        else trainAux 100 (1 / 2) (fun _ => (1 : ℚ)) 100 0 initState).losses = _
    split <;> rfl
  rw [htr, h]
  simp

/-- C2 (amended): run with `n_epochs = 100` and `frac_start_save = 1/2`
(lookback hard-coded to 25% of the epochs); on any loss sequence whose best
loss over epochs 10-50 is some `B ≠ 0` and whose losses from epoch 51 onward
are all strictly greater than `B`, the loop halts before reaching epoch 100
(the stored loss list stays shorter than 100 entries). -/
theorem C2_early_stop (seq : ℕ → ℚ) (fl : ℚ) (B : ℚ)
    (hBlow : ∀ j, 10 ≤ j → j ≤ 50 → B ≤ seq j)
    (hBmem : ∃ j, 10 ≤ j ∧ j ≤ 50 ∧ seq j = B)
    (hlate : ∀ j, 51 ≤ j → B < seq j)
    (hB0 : B ≠ 0) :
    (train 100 (1 / 2) fl seq).losses.length < 100 := by
  have h := trainAux_halts seq B hBlow hBmem hlate hB0 100 0 initState (by omega) (by omega)
    rfl (fun _ => rfl) (fun hcon => absurd hcon (by omega))
  have htr : (train 100 (1 / 2) fl seq).losses
      = (trainAux 100 (1 / 2) seq 100 0 initState).losses := by
    show (if (trainAux 100 (1 / 2) seq 100 0 initState).saved_model = true
        then { trainAux 100 (1 / 2) seq 100 0 initState with reloaded := true }
        else trainAux 100 (1 / 2) seq 100 0 initState).losses = _
    split <;> rfl
  rw [htr]
  omega

/-- C2 (witness): a loss sequence sitting at 2 through epoch 50 and jumping
to 3 afterwards makes the loop stop before epoch 100. -/
theorem C2_wit :
    (train 100 (1 / 2) (1 / 4) (fun e => if e ≤ 50 then (2 : ℚ) else 3)).losses.length < 100 := by
  apply C2_early_stop _ _ 2
  · intro j _ hj'
    rw [if_pos hj']
  · exact ⟨10, by omega, by omega, by rw [if_pos (by omega)]⟩
  · intro j hj
    rw [if_neg (by omega)]
    norm_num
  · norm_num

/-! ## Claim C3 -/

/-- C3: the KL temperature ramps from 0 to 1 over the first 10% of the
epochs and is then held at 1; for `n_epochs = 100` it equals exactly
`epoch/10` for `epoch < 10` and exactly `1` for `epoch ≥ 10`. -/
theorem C3_temperature :
    (∀ e : ℕ, e < 10 → temperature_kl 100 e = (e : ℚ) / 10)
  ∧ (∀ e : ℕ, 10 ≤ e → temperature_kl 100 e = 1) := by
  constructor
  · intro e he
    unfold temperature_kl
    have h100 : ((100 : ℕ) : ℚ) / 10 = 10 := by norm_num
    rw [h100, if_pos (by exact_mod_cast he)]
  · intro e he
    exact (temperature_kl_100_eq_one_iff e).mpr he

/-- C3 (witness): the ramp at epoch 7 and the plateau at epoch 42. -/
theorem C3_wit : temperature_kl 100 7 = 7 / 10 ∧ temperature_kl 100 42 = 1 := by
  refine ⟨?_, C3_temperature.2 42 (by omega)⟩
  rw [C3_temperature.1 7 (by omega)]
  norm_num

/-! ## Claim C9 -/

/-- C9: with the default `frac_start_save = 1` the save condition
`epoch > frac_start_save * n_epochs` is false for every epoch in
`range(n_epochs)`, so `train` never writes a checkpoint and never reloads
one on loop exit. -/
theorem C9_no_checkpoint (n : ℕ) (fl : ℚ) (seq : ℕ → ℚ) :
    (∀ (e : ℕ) (l : ℚ) (ob : Option ℚ), e < n → saveCond 1 n e l ob = false)
  ∧ (train n 1 fl seq).saves = []
  ∧ (train n 1 fl seq).saved_model = false
  ∧ (train n 1 fl seq).reloaded = false := by
  obtain ⟨i1, i2, i3⟩ := trainAux_preserve n seq n 0 initState (by omega)
  have htr : train n 1 fl seq = trainAux n 1 seq n 0 initState := by
    show (if (trainAux n 1 seq n 0 initState).saved_model = true
        then { trainAux n 1 seq n 0 initState with reloaded := true }
        else trainAux n 1 seq n 0 initState) = _
    rw [if_neg (by simp only [i2]; exact Bool.false_ne_true)]
  refine ⟨fun e l ob he => saveCond_one_false n e l ob he, ?_, ?_, ?_⟩
  · rw [htr]
    exact i1
  · rw [htr]
    exact i2
  · rw [htr]
    exact i3

/-- C9 (witness): a concrete 5-epoch run with the default
`frac_start_save = 1` writes no checkpoint and reloads nothing. -/
theorem C9_wit :
    saveCond 1 5 3 0 none = false
  ∧ (train 5 1 0 (fun _ => 0)).saves = []
  ∧ (train 5 1 0 (fun _ => 0)).saved_model = false
  ∧ (train 5 1 0 (fun _ => 0)).reloaded = false := by
  obtain ⟨h1, h2, h3, h4⟩ := C9_no_checkpoint 5 0 (fun _ => 0)
  exact ⟨h1 3 0 none (by omega), h2, h3, h4⟩

/-! ## Claim C5 -/

/-- C5: for the cosine-RFF feature map `h_k(x) = sqrt(2/K) cos(x·W[k]/ℓ + b[k])`
the analytic jacobian transcribed from sparse.py line 445,
`J[k,d] = -sqrt(2/K) * W[k,d]/ℓ * sin(x·W[k]/ℓ + b[k])`,
is the true partial derivative of hidden unit `k` with respect to input
coordinate `d` at every input `x`; in particular the general-autodiff
jacobian of `RffGradPen.compute_jacobian` takes these same values. -/
theorem C5_jacobian (K D : ℕ) (W : Fin K → Fin D → ℝ) (b : Fin K → ℝ) (l : ℝ)
    (x : Fin D → ℝ) (k : Fin K) (d : Fin D) :
    HasDerivAt (fun t => rffHidden K D W b l (Function.update x d t) k)
      (jacobian_hidden_features K D W b l x k d) (x d) := by
  have hupd : ∀ t : ℝ, (∑ d' : Fin D, Function.update x d t d' * W k d')
      = t * W k d + ∑ d' in Finset.univ \ {d}, x d' * W k d' := by
    intro t
    have h1 : ∀ d' : Fin D, Function.update x d t d' * W k d'
        = Function.update (fun j => x j * W k j) d (t * W k d) d' := by
      intro d'
      by_cases h : d' = d
      · subst h
        simp
      · simp [Function.update_noteq h]
    calc (∑ d' : Fin D, Function.update x d t d' * W k d')
        = ∑ d' : Fin D, Function.update (fun j => x j * W k j) d (t * W k d) d' :=
          Finset.sum_congr rfl fun d' _ => h1 d'
      _ = t * W k d + ∑ d' in Finset.univ \ {d}, x d' * W k d' :=
          Finset.sum_update_of_mem (Finset.mem_univ d) (fun j => x j * W k j) (t * W k d)
  have hlin : HasDerivAt
      (fun t : ℝ => (t * W k d + ∑ d' in Finset.univ \ {d}, x d' * W k d') / l + b k)
      (W k d / l) (x d) := by
    have h1 : HasDerivAt (fun t : ℝ => t * W k d) (W k d) (x d) := by
      simpa using (hasDerivAt_id (x d)).mul_const (W k d)
    simpa using
      ((h1.add_const (∑ d' in Finset.univ \ {d}, x d' * W k d')).div_const l).add_const (b k)
  have hcos := hlin.cos
  have hmul := hcos.const_mul (Real.sqrt (2 / (K : ℝ)))
  have hfun : (fun t => rffHidden K D W b l (Function.update x d t) k)
      = fun t => Real.sqrt (2 / (K : ℝ))
          * Real.cos ((t * W k d + ∑ d' in Finset.univ \ {d}, x d' * W k d') / l + b k) := by
    funext t
    simp only [rffHidden]
    rw [hupd t]
  have hx : (∑ d' : Fin D, x d' * W k d')
      = x d * W k d + ∑ d' in Finset.univ \ {d}, x d' * W k d' := by
    have h := hupd (x d)
    simpa [Function.update_eq_self] using h
  have hjac : jacobian_hidden_features K D W b l x k d
      = Real.sqrt (2 / (K : ℝ))
          * (-Real.sin ((x d * W k d + ∑ d' in Finset.univ \ {d}, x d' * W k d') / l + b k)
            * (W k d / l)) := by
    simp only [jacobian_hidden_features]
    rw [hx]
    ring
  rw [hfun, hjac]
  exact hmul
